import Mathlib

/-!
Verification of the `FileOrganizer` engine (src/file_organizer.py).

The Python class is shallowly embedded: the extension table is a Lean
association list, `pathlib.Path.suffix` becomes `pySuffix` (the substring,
dot included, after the last `.` when that dot is neither leading nor
trailing), `str.lower`/`str.upper` become ASCII-range character maps, and
the filesystem touched by `organize_files` / `create_category_folders` is a
record `FS` of the target directory's subdirectories, regular files, and
files already moved into category folders.  `shutil.move` failures are
modelled by an oracle telling which moves succeed.
-/

namespace FileOrganizer

/-- The fixed extension table from `FileOrganizer.__init__`
(`self._file_extensions`), in declaration order. -/
def fileExtensionsTable : List (String × List String) := [
  ("Images", [".jpg", ".jpeg", ".png", ".gif", ".bmp", ".svg", ".webp", ".ico"]),
  ("Documents", [".pdf", ".doc", ".docx", ".txt", ".rtf", ".odt", ".xls", ".xlsx", ".ppt", ".pptx"]),
  ("Videos", [".mp4", ".avi", ".mkv", ".mov", ".wmv", ".flv", ".webm", ".m4v"]),
  ("Audio", [".mp3", ".wav", ".flac", ".aac", ".ogg", ".m4a", ".wma"]),
  ("Archives", [".zip", ".rar", ".7z", ".tar", ".gz", ".bz2"]),
  ("Code", [".py", ".js", ".html", ".css", ".java", ".cpp", ".c", ".php", ".rb", ".go"]),
  ("Executables", [".exe", ".msi", ".deb", ".rpm", ".dmg", ".app"])]

/-- `list(self._file_extensions.keys()) + ['Other']`: the category names in
table order followed by the fallback category. -/
def categories : List String := fileExtensionsTable.map Prod.fst ++ ["Other"]

/-- Python `str.lower` on one character, ASCII range (all table extensions
are ASCII). -/
def pyLowerChar (c : Char) : Char :=
  match c with
  | 'A' => 'a' | 'B' => 'b' | 'C' => 'c' | 'D' => 'd' | 'E' => 'e' | 'F' => 'f'
  | 'G' => 'g' | 'H' => 'h' | 'I' => 'i' | 'J' => 'j' | 'K' => 'k' | 'L' => 'l'
  | 'M' => 'm' | 'N' => 'n' | 'O' => 'o' | 'P' => 'p' | 'Q' => 'q' | 'R' => 'r'
  | 'S' => 's' | 'T' => 't' | 'U' => 'u' | 'V' => 'v' | 'W' => 'w' | 'X' => 'x'
  | 'Y' => 'y' | 'Z' => 'z'
  | c => c

/-- Python `str.upper` on one character, ASCII range. -/
def pyUpperChar (c : Char) : Char :=
  match c with
  | 'a' => 'A' | 'b' => 'B' | 'c' => 'C' | 'd' => 'D' | 'e' => 'E' | 'f' => 'F'
  | 'g' => 'G' | 'h' => 'H' | 'i' => 'I' | 'j' => 'J' | 'k' => 'K' | 'l' => 'L'
  | 'm' => 'M' | 'n' => 'N' | 'o' => 'O' | 'p' => 'P' | 'q' => 'Q' | 'r' => 'R'
  | 's' => 'S' | 't' => 'T' | 'u' => 'U' | 'v' => 'V' | 'w' => 'W' | 'x' => 'X'
  | 'y' => 'Y' | 'z' => 'Z'
  | c => c

/-- Index of the last occurrence of `c` (Python `str.rfind`), `none` when
absent. -/
def rfindIdx : List Char → Char → Option Nat
  | [], _ => none
  | x :: xs, c =>
    match rfindIdx xs c with
    | some i => some (i + 1)
    | none => if x = c then some 0 else none

/-- `pathlib.PurePath.suffix` on a plain file name: the slice from the last
dot onward, provided that dot is neither the first nor the last character;
otherwise the empty string. -/
def pySuffix (name : List Char) : List Char :=
  match rfindIdx name '.' with
  | some i => if 0 < i ∧ i < name.length - 1 then name.drop i else []
  | none => []

/-- `FileOrganizer.get_file_extension`: `file_path.suffix.lower()`. -/
def get_file_extension (name : String) : String :=
  ⟨(pySuffix name.data).map pyLowerChar⟩

/-- The table scan of `FileOrganizer.categorize_file`: first category whose
extension list contains the given (already lower-cased) extension, else
`"Other"`. -/
def categoryOfExt (ext : String) : String :=
  match fileExtensionsTable.find? (fun kv => kv.2.contains ext) with
  | some kv => kv.1
  | none => "Other"

/-- `FileOrganizer.categorize_file`. -/
def categorize_file (name : String) : String :=
  categoryOfExt (get_file_extension name)

/-- The spec-side transformation of claim C6: the same file name with its
extension (the `pySuffix` slice) upper-cased; names without a proper
extension are returned unchanged. -/
def upper_case_extension (name : String) : String :=
  match rfindIdx name.data '.' with
  | some i =>
    if 0 < i ∧ i < name.data.length - 1 then
      ⟨name.data.take i ++ (name.data.drop i).map pyUpperChar⟩
    else name
  | none => name

/-- The filesystem slice that the organizer touches: whether the target
directory exists, the names of its immediate subdirectories, the names of
its immediate regular files, and the files already placed inside a
subdirectory (as `(subdirectory, filename)` pairs). -/
structure FS where
  rootExists : Bool
  dirs : List String
  files : List String
  subfiles : List (String × String)
deriving DecidableEq

/-- `folder_path.mkdir(exist_ok=True)` for `folder_path = directory / name`:
raises `FileNotFoundError` when the parent directory is missing (`parents`
is not set, so the target directory is never created); raises
`FileExistsError` when the path exists as a regular file (`exist_ok=True`
suppresses the error only when the existing path is a directory); no-op
when the folder already exists; otherwise creates it. -/
def mkdirExistOk (fs : FS) (name : String) : Except String FS :=
  if fs.rootExists then
    if fs.files.contains name then .error "FileExistsError"
    else if fs.dirs.contains name then .ok fs
    else .ok { fs with dirs := fs.dirs ++ [name] }
  else .error "FileNotFoundError"

/-- The `for category in categories` loop of `create_category_folders`:
runs `mkdir` for each name in order; an exception aborts the loop leaving
the filesystem as it was at that point. -/
def runMkdirs : List String → FS → FS × Option String
  | [], fs => (fs, none)
  | c :: rest, fs =>
    match mkdirExistOk fs c with
    | .ok fs1 => runMkdirs rest fs1
    | .error e => (fs, some e)

/-- `FileOrganizer.create_category_folders`: one `mkdir(exist_ok=True)` per
category, in table order with `"Other"` last. -/
def create_category_folders (fs : FS) : FS × Option String :=
  runMkdirs categories fs

/-- `shutil.move(str(file_path), str(destination))`: on success the file
leaves the target directory's listing and appears inside the category
folder; failure (permission, lock, ...) is modelled by the `oracle`
parameter and leaves the file in place. -/
def moveFile (oracle : String → Bool) (fs : FS) (name category : String) :
    Except String FS :=
  if oracle name then
    .ok { fs with files := fs.files.erase name,
                  subfiles := fs.subfiles ++ [(category, name)] }
  else .error ("Error moving " ++ name)

/-- `moved_files = {category: [] for category in ... + ['Other']}`. -/
def initResult : List (String × List String) := categories.map fun c => (c, [])

/-- `moved_files[category].append(file_path.name)`. -/
def addTo (r : List (String × List String)) (cat name : String) :
    List (String × List String) :=
  r.map fun kv => if kv.1 = cat then (kv.1, kv.2 ++ [name]) else kv

/-- One iteration of the `for file_path in files` loop of
`organize_files`: in dry-run mode only the result is extended; otherwise
the move is attempted and, on success, the file is recorded — the
`except` clause makes a failed move leave both the state and the result
unchanged. -/
def organizeStep (oracle : String → Bool) (dry : Bool)
    (st : FS × List (String × List String)) (name : String) :
    FS × List (String × List String) :=
  let category := categorize_file name
  if dry then (st.1, addTo st.2 category name)
  else
    match moveFile oracle st.1 name category with
    | .ok fs1 => (fs1, addTo st.2 category name)
    | .error _ => st

/-- The filesystem effect of one live-mode loop iteration of
`organize_files` (the successful-move branch, or no change on failure). -/
def moveStateStep (oracle : String → Bool) (fs : FS) (n : String) : FS :=
  if oracle n then
    { fs with files := fs.files.erase n,
              subfiles := fs.subfiles ++ [(categorize_file n, n)] }
  else fs

/-- `FileOrganizer.organize_files(dry_run)`: existence check, result
initialisation, enumeration of regular files, early return when there are
none, folder creation (live mode only), then the per-file loop.  Returns
the final filesystem together with the returned dictionary or the raised
exception. -/
def organize_files (oracle : String → Bool) (fs : FS) (dry : Bool) :
    FS × Except String (List (String × List String)) :=
  if !fs.rootExists then (fs, .error "Directory does not exist")
  else if fs.files.isEmpty then (fs, .ok initResult)
  else
    match (if dry then (fs, none) else create_category_folders fs) with
    | (fs1, some e) => (fs1, .error e)
    | (fs1, none) =>
      ((fs.files.foldl (organizeStep oracle dry) (fs1, initResult)).1,
       .ok (fs.files.foldl (organizeStep oracle dry) (fs1, initResult)).2)

/-- Python-object view used for the deep-copy claim: a heap of list cells
(each holding one extension list) and the organizer's private dict
`_file_extensions`, whose values are references into the heap. -/
structure PyState where
  heap : List (List String)
  orgTable : List (String × Nat)
deriving DecidableEq

/-- The organizer right after `__init__`: seven cells holding the table's
extension lists, referenced in declaration order. -/
def initState : PyState :=
  { heap := fileExtensionsTable.map Prod.snd,
    orgTable := [("Images", 0), ("Documents", 1), ("Videos", 2), ("Audio", 3),
                 ("Archives", 4), ("Code", 5), ("Executables", 6)] }

/-- The `file_extensions` property: `{k: v.copy() for k, v in ...}` — for
each entry a fresh cell holding a copy of the extension list is allocated,
and the returned dict references only those fresh cells. -/
def file_extensions_prop (s : PyState) : PyState × List (String × Nat) :=
  s.orgTable.foldl
    (fun acc kv =>
      ({ heap := acc.1.heap ++ [acc.1.heap.getD kv.2 []], orgTable := acc.1.orgTable },
       acc.2 ++ [(kv.1, acc.1.heap.length)]))
    (s, [])

/-- An in-place mutation of one list cell (e.g. `lst.append(...)` or
`lst.clear()` performed by a caller on the returned dict's values). -/
def writeCell (s : PyState) (r : Nat) (v : List String) : PyState :=
  { s with heap := s.heap.set r v }

/-- A sequence of caller mutations, each writing one cell. -/
def applyWrites (s : PyState) : List (Nat × List String) → PyState
  | [] => s
  | w :: ws => applyWrites (writeCell s w.1 w.2) ws

/-- `categorize_file` reading the table through the heap, as the Python
object does. -/
def categorize_heap (s : PyState) (name : String) : String :=
  match s.orgTable.find? (fun kv => (s.heap.getD kv.2 []).contains (get_file_extension name)) with
  | some kv => kv.1
  | none => "Other"

/-! ### Character-level lemmas -/

theorem pyLower_pyUpper (c : Char) : pyLowerChar (pyUpperChar c) = pyLowerChar c := by
  unfold pyUpperChar
  split <;> rfl

theorem pyUpperChar_eq_dot_iff (c : Char) : pyUpperChar c = '.' ↔ c = '.' := by
  unfold pyUpperChar
  split <;> first | exact Iff.rfl | decide

theorem pyLowerChar_dot : pyLowerChar '.' = '.' := by decide

/-! ### Lemmas about `rfindIdx` and `pySuffix` -/

theorem rfindIdx_eq_none_iff {l : List Char} {c : Char} : rfindIdx l c = none ↔ c ∉ l := by
  induction l with
  | nil => simp [rfindIdx]
  | cons x xs ih =>
    rw [rfindIdx]
    cases hx : rfindIdx xs c with
    | some j =>
      have hc : c ∈ xs := by
        by_contra hcn
        rw [ih.mpr hcn] at hx
        exact Option.noConfusion hx
      simp [hc]
    | none =>
      have hc : c ∉ xs := ih.mp hx
      by_cases hxc : x = c
      · subst hxc; simp
      · have hcx : ¬ c = x := fun hh => hxc hh.symm
        simp [hxc, hc, hcx]

theorem rfindIdx_append (u v : List Char) (c : Char) :
    rfindIdx (u ++ v) c =
      match rfindIdx v c with
      | some j => some (u.length + j)
      | none => rfindIdx u c := by
  induction u with
  | nil =>
    simp only [List.nil_append, List.length_nil, Nat.zero_add]
    cases rfindIdx v c <;> rfl
  | cons x xs ih =>
    rw [List.cons_append, rfindIdx, ih]
    cases hv : rfindIdx v c with
    | some j =>
      simp only [List.length_cons]
      congr 1
      omega
    | none => rw [rfindIdx]

theorem rfindIdx_decomp {l : List Char} {c : Char} {i : Nat}
    (h : rfindIdx l c = some i) :
    i < l.length ∧ l.drop i = c :: l.drop (i + 1) ∧ c ∉ l.drop (i + 1) := by
  induction l generalizing i with
  | nil => simp [rfindIdx] at h
  | cons x xs ih =>
    rw [rfindIdx] at h
    cases hx : rfindIdx xs c with
    | some j =>
      rw [hx] at h
      injection h with h
      subst h
      obtain ⟨h1, h2, h3⟩ := ih hx
      refine ⟨by simpa using Nat.succ_lt_succ h1, ?_, ?_⟩
      · simpa [List.drop] using h2
      · simpa [List.drop] using h3
    | none =>
      rw [hx] at h
      by_cases hxc : x = c
      · rw [if_pos hxc] at h
        injection h with h
        subst h
        subst hxc
        exact ⟨by simp, by simp, by simpa [List.drop] using rfindIdx_eq_none_iff.mp hx⟩
      · rw [if_neg hxc] at h
        exact Option.noConfusion h

/-- `rfindIdx` of a list whose last dot is made explicit. -/
theorem rfindIdx_dot_spec (u v : List Char) (hv : '.' ∉ v) :
    rfindIdx (u ++ '.' :: v) '.' = some u.length := by
  rw [rfindIdx_append]
  have h1 : rfindIdx ('.' :: v) '.' = some 0 := by
    rw [rfindIdx, rfindIdx_eq_none_iff.mpr hv, if_pos rfl]
  rw [h1]
  simp

theorem pySuffix_no_dot {l : List Char} (h : '.' ∉ l) : pySuffix l = [] := by
  rw [pySuffix, rfindIdx_eq_none_iff.mpr h]

theorem pySuffix_dotfile {t : List Char} (h : '.' ∉ t) : pySuffix ('.' :: t) = [] := by
  have h0 : rfindIdx ('.' :: t) '.' = some 0 := by
    rw [rfindIdx, rfindIdx_eq_none_iff.mpr h, if_pos rfl]
  rw [pySuffix, h0]
  simp

theorem pySuffix_eq_of_rfind {l : List Char} {i : Nat}
    (h : rfindIdx l '.' = some i) (hcond : 0 < i ∧ i < l.length - 1) :
    pySuffix l = l.drop i := by
  rw [pySuffix, h]
  show (if 0 < i ∧ i < l.length - 1 then l.drop i else []) = l.drop i
  rw [if_pos hcond]

/-- A name with an explicit last dot and a nonempty dot-free tail has that
tail (dot included) as its suffix. -/
theorem pySuffix_split (u v : List Char) (hu : u ≠ []) (hv0 : v ≠ []) (hv : '.' ∉ v) :
    pySuffix (u ++ '.' :: v) = '.' :: v := by
  rw [pySuffix, rfindIdx_dot_spec u v hv]
  have hcond : 0 < u.length ∧ u.length < (u ++ '.' :: v).length - 1 := by
    constructor
    · exact List.length_pos.mpr hu
    · simp only [List.length_append, List.length_cons]
      have : 0 < v.length := List.length_pos.mpr hv0
      omega
  show (if 0 < u.length ∧ u.length < (u ++ '.' :: v).length - 1 then
      List.drop u.length (u ++ '.' :: v) else []) = '.' :: v
  rw [if_pos hcond, List.drop_left]

/-- Trailing-dot case: an explicit last dot with nothing after it yields an
empty suffix. -/
theorem pySuffix_trailing_dot (u : List Char) : pySuffix (u ++ ['.'] ) = [] := by
  have h : rfindIdx (u ++ '.' :: ([] : List Char)) '.' = some u.length :=
    rfindIdx_dot_spec u [] (by simp)
  rw [pySuffix]
  rw [show u ++ ['.'] = u ++ '.' :: ([] : List Char) from rfl, h]
  have : ¬ (0 < u.length ∧ u.length < (u ++ '.' :: ([] : List Char)).length - 1) := by
    simp only [List.length_append, List.length_cons, List.length_nil]
    omega
  show (if 0 < u.length ∧ u.length < (u ++ '.' :: ([] : List Char)).length - 1 then
      List.drop u.length (u ++ '.' :: ([] : List Char)) else []) = []
  rw [if_neg this]

/-! ### Lemmas about folder provisioning -/

theorem runMkdirs_ok (l : List String) (fs : FS) (h : fs.rootExists = true)
    (hnof : ∀ d ∈ l, d ∉ fs.files) :
    ∃ fs', runMkdirs l fs = (fs', none)
      ∧ fs'.rootExists = true
      ∧ fs'.files = fs.files
      ∧ fs'.subfiles = fs.subfiles
      ∧ (∀ d, d ∈ fs'.dirs ↔ d ∈ fs.dirs ∨ d ∈ l)
      ∧ (fs.dirs.Nodup → fs'.dirs.Nodup) := by
  induction l generalizing fs with
  | nil => exact ⟨fs, rfl, h, rfl, rfl, fun d => by simp, id⟩
  | cons c rest ih =>
    have hf : ¬ fs.files.contains c = true := fun hq =>
      hnof c (by simp) (List.elem_iff.mp hq)
    have hnof' : ∀ d ∈ rest, d ∉ fs.files :=
      fun d hd => hnof d (List.mem_cons_of_mem _ hd)
    by_cases hc : fs.dirs.contains c = true
    · have hstep : mkdirExistOk fs c = .ok fs := by
        rw [mkdirExistOk, if_pos (by rw [h]), if_neg hf, if_pos hc]
      have hcm : c ∈ fs.dirs := by
        simpa [List.contains] using List.elem_iff.mp hc
      obtain ⟨fs', h1, h2, h3, h4, h5, h6⟩ := ih fs h hnof'
      refine ⟨fs', ?_, h2, h3, h4, fun d => ?_, h6⟩
      · rw [runMkdirs, hstep]; exact h1
      · rw [h5 d]
        constructor
        · rintro (hd | hd)
          · exact Or.inl hd
          · exact Or.inr (List.mem_cons_of_mem _ hd)
        · rintro (hd | hd)
          · exact Or.inl hd
          · rcases List.mem_cons.mp hd with rfl | hd
            · exact Or.inl hcm
            · exact Or.inr hd
    · have hcm : c ∉ fs.dirs := fun hm =>
        hc (by simpa [List.contains] using List.elem_iff.mpr hm)
      have hstep : mkdirExistOk fs c = .ok { fs with dirs := fs.dirs ++ [c] } := by
        rw [mkdirExistOk, if_pos (by rw [h]), if_neg hf, if_neg hc]
      obtain ⟨fs', h1, h2, h3, h4, h5, h6⟩ := ih { fs with dirs := fs.dirs ++ [c] } h hnof'
      refine ⟨fs', ?_, h2, h3, h4, fun d => ?_, fun hnd => ?_⟩
      · rw [runMkdirs, hstep]; exact h1
      · rw [h5 d]
        simp only [List.mem_append, List.mem_singleton, List.mem_cons]
        tauto
      · refine h6 ?_
        simp only [List.nodup_append, List.nodup_cons, List.nodup_nil, and_true]
        exact ⟨hnd, by simp, by simpa [List.disjoint_singleton] using hcm⟩

theorem runMkdirs_id (l : List String) (fs : FS) (h : fs.rootExists = true)
    (hnof : ∀ d ∈ l, d ∉ fs.files)
    (hall : ∀ d ∈ l, d ∈ fs.dirs) : runMkdirs l fs = (fs, none) := by
  induction l with
  | nil => rfl
  | cons c rest ih =>
    have hf : ¬ fs.files.contains c = true := fun hq =>
      hnof c (by simp) (List.elem_iff.mp hq)
    have hc : fs.dirs.contains c = true :=
      List.elem_iff.mpr (hall c (by simp))
    have hstep : mkdirExistOk fs c = .ok fs := by
      rw [mkdirExistOk, if_pos (by rw [h]), if_neg hf, if_pos hc]
    rw [runMkdirs, hstep]
    show runMkdirs rest fs = (fs, none)
    exact ih (fun d hd => hnof d (List.mem_cons_of_mem _ hd))
      (fun d hd => hall d (List.mem_cons_of_mem _ hd))

/-- On an existing directory, the only exception the provisioning loop can
raise is the `FileExistsError` for a category-named regular file. -/
theorem runMkdirs_err (l : List String) :
    ∀ (fs fs' : FS) (e : String), fs.rootExists = true →
      runMkdirs l fs = (fs', some e) → e = "FileExistsError" := by
  induction l with
  | nil =>
    intro fs fs' e h hq
    have hq' : (fs, (none : Option String)) = (fs', some e) := hq
    exact absurd (congrArg Prod.snd hq') (by simp)
  | cons c rest ih =>
    intro fs fs' e h hq
    rw [runMkdirs] at hq
    by_cases hf : fs.files.contains c = true
    · have hstep : mkdirExistOk fs c = .error "FileExistsError" := by
        rw [mkdirExistOk, if_pos (by rw [h]), if_pos hf]
      rw [hstep] at hq
      have hq' : (fs, some "FileExistsError") = (fs', some e) := hq
      have hsnd := congrArg Prod.snd hq'
      simp only [Option.some.injEq] at hsnd
      exact hsnd.symm
    · by_cases hd : fs.dirs.contains c = true
      · have hstep : mkdirExistOk fs c = .ok fs := by
          rw [mkdirExistOk, if_pos (by rw [h]), if_neg hf, if_pos hd]
        rw [hstep] at hq
        exact ih fs fs' e h hq
      · have hstep : mkdirExistOk fs c = .ok { fs with dirs := fs.dirs ++ [c] } := by
          rw [mkdirExistOk, if_pos (by rw [h]), if_neg hf, if_neg hd]
        rw [hstep] at hq
        exact ih { fs with dirs := fs.dirs ++ [c] } fs' e h hq

/-! ### Lemmas about the result dictionary -/

theorem lookup_addTo (r : List (String × List String)) (c' c n : String) :
    (addTo r c n).lookup c' =
      if c' = c then (r.lookup c').map (· ++ [n]) else r.lookup c' := by
  induction r with
  | nil => simp [addTo]
  | cons kv t ih =>
    obtain ⟨k, v⟩ := kv
    have hunf : addTo ((k, v) :: t) c n
        = (if k = c then (k, v ++ [n]) else (k, v)) :: addTo t c n := rfl
    rw [hunf]
    by_cases hk : k = c
    · by_cases hck : c' = k
      · subst hk; subst hck
        simp [List.lookup_cons]
      · have hcc : ¬ c' = c := hk ▸ hck
        simp [List.lookup_cons, hk, beq_false_of_ne hck, beq_false_of_ne hcc, hcc, ih]
    · by_cases hck : c' = k
      · have hcc : ¬ c' = c := fun hh => hk (hck.symm.trans hh)
        subst hck
        simp [List.lookup_cons, hk, hcc]
      · simp [List.lookup_cons, hk, beq_false_of_ne hck, ih]

theorem lookup_foldl_record (p : String → Bool) (l : List String) :
    ∀ (r : List (String × List String)) (c : String),
    (l.foldl (fun r n => if p n then addTo r (categorize_file n) n else r) r).lookup c =
      (r.lookup c).map (· ++ l.filter (fun n => p n && (categorize_file n == c))) := by
  induction l with
  | nil =>
    intro r c
    rw [List.foldl_nil, List.filter_nil]
    cases r.lookup c <;> simp
  | cons n t ih =>
    intro r c
    rw [List.foldl_cons]
    by_cases hp : p n = true
    · rw [if_pos hp, ih, lookup_addTo]
      by_cases hc : c = categorize_file n
      · have hq : (p n && (categorize_file n == c)) = true := by
          rw [hp, hc]; simp
        rw [if_pos hc, List.filter_cons, if_pos hq]
        cases r.lookup c <;> simp
      · have hq : (p n && (categorize_file n == c)) = false := by
          rw [hp]
          simpa using fun hh : categorize_file n = c => hc hh.symm
        rw [if_neg hc, List.filter_cons, hq]
        simp
    · have hp' : p n = false := by simpa using hp
      have hq : (p n && (categorize_file n == c)) = false := by rw [hp']; simp
      rw [if_neg hp, ih, List.filter_cons, hq]
      simp

theorem lookup_initResult {c : String} (h : c ∈ categories) :
    initResult.lookup c = some [] := by
  fin_cases h <;> rfl

theorem categorize_mem_categories (name : String) :
    categorize_file name ∈ categories := by
  rw [categorize_file, categoryOfExt]
  cases hf : fileExtensionsTable.find? (fun kv => kv.2.contains (get_file_extension name)) with
  | some kv =>
    have hm : kv ∈ fileExtensionsTable := List.mem_of_find?_eq_some hf
    exact List.mem_append_left _ (List.mem_map_of_mem Prod.fst hm)
  | none => exact List.mem_append_right _ (by simp)

/-! ### Lemmas about the per-file loop -/

theorem foldl_organizeStep_dry (oracle : String → Bool) (l : List String) :
    ∀ (fs : FS) (r : List (String × List String)),
    l.foldl (organizeStep oracle true) (fs, r) =
      (fs, l.foldl (fun r n => addTo r (categorize_file n) n) r) := by
  induction l with
  | nil => intro fs r; rfl
  | cons n t ih =>
    intro fs r
    rw [List.foldl_cons, List.foldl_cons]
    exact ih fs _

theorem foldl_record_true (l : List String) (r : List (String × List String)) :
    l.foldl (fun r n => addTo r (categorize_file n) n) r =
      l.foldl (fun r n =>
        if (fun _ => true : String → Bool) n then addTo r (categorize_file n) n else r) r := by
  induction l generalizing r with
  | nil => rfl
  | cons n t ih =>
    rw [List.foldl_cons, List.foldl_cons]
    exact ih _

theorem foldl_organizeStep_live (oracle : String → Bool) (l : List String) :
    ∀ (fs : FS) (r : List (String × List String)),
    l.foldl (organizeStep oracle false) (fs, r) =
      (l.foldl (moveStateStep oracle) fs,
       l.foldl (fun r n => if oracle n then addTo r (categorize_file n) n else r) r) := by
  induction l with
  | nil => intro fs r; rfl
  | cons n t ih =>
    intro fs r
    rw [List.foldl_cons, List.foldl_cons, List.foldl_cons]
    by_cases ho : oracle n = true
    · have hstep : organizeStep oracle false (fs, r) n =
          (moveStateStep oracle fs n, addTo r (categorize_file n) n) := by
        simp [organizeStep, moveFile, moveStateStep, ho]
      rw [hstep, if_pos ho]
      exact ih _ _
    · have hstep : organizeStep oracle false (fs, r) n = (fs, r) := by
        simp [organizeStep, moveFile, moveStateStep, ho]
      have hfs : moveStateStep oracle fs n = fs := by simp [moveStateStep, ho]
      rw [hstep, hfs, if_neg ho]
      exact ih _ _

theorem files_foldl_moveState (oracle : String → Bool) (l : List String) :
    ∀ fs : FS, (l.foldl (moveStateStep oracle) fs).files =
      l.foldl (fun fl n => if oracle n then fl.erase n else fl) fs.files := by
  induction l with
  | nil => intro fs; rfl
  | cons n t ih =>
    intro fs
    rw [List.foldl_cons, List.foldl_cons, ih]
    by_cases ho : oracle n = true <;> simp [moveStateStep, ho]

theorem foldl_erase_cons (oracle : String → Bool) (t : List String) :
    ∀ (s : List String) (n : String), n ∉ t →
    t.foldl (fun fl m => if oracle m then fl.erase m else fl) (n :: s) =
      n :: t.foldl (fun fl m => if oracle m then fl.erase m else fl) s := by
  induction t with
  | nil => intros; rfl
  | cons m t ih =>
    intro s n hn
    have hmn : ¬ m = n := by rintro rfl; exact hn (by simp)
    have hn' : n ∉ t := fun hh => hn (List.mem_cons_of_mem _ hh)
    rw [List.foldl_cons, List.foldl_cons]
    by_cases ho : oracle m = true
    · have hnm : ¬ n = m := fun hh => hmn hh.symm
      rw [if_pos ho, if_pos ho, List.erase_cons_tail (by simpa using hnm)]
      exact ih _ n hn'
    · rw [if_neg ho, if_neg ho]
      exact ih _ n hn'

theorem foldl_erase_eq_filter (oracle : String → Bool) (l : List String)
    (h : l.Nodup) :
    l.foldl (fun fl m => if oracle m then fl.erase m else fl) l =
      l.filter (fun n => !(oracle n)) := by
  induction l with
  | nil => rfl
  | cons n t ih =>
    have hn : n ∉ t := (List.nodup_cons.mp h).1
    have ht : t.Nodup := (List.nodup_cons.mp h).2
    rw [List.foldl_cons, List.filter_cons]
    by_cases ho : oracle n = true
    · rw [if_pos ho, List.erase_cons_head]
      have hb : (!oracle n) = false := by rw [ho]; rfl
      rw [hb]
      simpa using ih ht
    · have ho' : oracle n = false := by revert ho; cases oracle n <;> simp
      rw [if_neg ho, foldl_erase_cons oracle t t n hn, ih ht, ho']
      simp

/-! ### Equations for `organize_files` under the four entry conditions -/

theorem organize_files_no_root (oracle : String → Bool) (fs : FS) (dry : Bool)
    (h : fs.rootExists = false) :
    organize_files oracle fs dry = (fs, .error "Directory does not exist") := by
  unfold organize_files
  rw [h]
  rfl

theorem organize_files_empty (oracle : String → Bool) (fs : FS) (dry : Bool)
    (h : fs.rootExists = true) (he : fs.files.isEmpty = true) :
    organize_files oracle fs dry = (fs, .ok initResult) := by
  unfold organize_files
  rw [h, he]
  rfl

theorem organize_files_dry_eq (oracle : String → Bool) (fs : FS)
    (h : fs.rootExists = true) (hne : fs.files.isEmpty = false) :
    organize_files oracle fs true =
      (fs, .ok (fs.files.foldl (fun r n => addTo r (categorize_file n) n) initResult)) := by
  unfold organize_files
  rw [h, hne]
  show ((fs.files.foldl (organizeStep oracle true) (fs, initResult)).1,
        Except.ok ((fs.files.foldl (organizeStep oracle true) (fs, initResult)).2)) = _
  rw [foldl_organizeStep_dry]

theorem organize_files_live_eq (oracle : String → Bool) (fs fs1 : FS)
    (h : fs.rootExists = true) (hne : fs.files.isEmpty = false)
    (hcr : create_category_folders fs = (fs1, none)) :
    organize_files oracle fs false =
      (fs.files.foldl (moveStateStep oracle) fs1,
       .ok (fs.files.foldl
          (fun r n => if oracle n then addTo r (categorize_file n) n else r) initResult)) := by
  unfold organize_files
  rw [h, hne, hcr]
  show ((fs.files.foldl (organizeStep oracle false) (fs1, initResult)).1,
        Except.ok ((fs.files.foldl (organizeStep oracle false) (fs1, initResult)).2)) = _
  rw [foldl_organizeStep_live]

theorem organize_files_live_err (oracle : String → Bool) (fs fs1 : FS) (e : String)
    (h : fs.rootExists = true) (hne : fs.files.isEmpty = false)
    (hcr : create_category_folders fs = (fs1, some e)) :
    organize_files oracle fs false = (fs1, .error e) := by
  unfold organize_files
  rw [h, hne, hcr]
  rfl

/-! ### Claim C1 -/

/-- Claim C1, amended: a live run (`dry_run = False`) on an existing
directory with no regular files returns a result mapping every category to
the empty sequence, without error, and leaves the filesystem completely
unchanged — in particular `organize_files` creates no category folders in
this case, because the empty-directory early return precedes folder
provisioning. -/
theorem claim_C1_organize_empty_dir (oracle : String → Bool) (fs : FS)
    (h : fs.rootExists = true) (he : fs.files = []) :
    organize_files oracle fs false = (fs, .ok initResult) :=
  organize_files_empty oracle fs false h (by rw [he]; rfl)

/-- Claim C1, counterexample to the claim as stated: after a live run of
`organize_files` on an existing directory with no files, the target
directory holds no category folders at all (`"Images"` among them),
contradicting "all 8 category folders are created before organize
returns". -/
theorem claim_C1_counterexample :
    (organize_files (fun _ => true) ⟨true, [], [], []⟩ false).1.dirs = []
      ∧ "Images" ∉ (organize_files (fun _ => true) ⟨true, [], [], []⟩ false).1.dirs :=
  ⟨rfl, by decide⟩

/-- Claim C1, witness: the amended theorem instantiated at a concrete empty
directory. -/
theorem claim_C1_witness :
    organize_files (fun _ => true) ⟨true, ["keep"], [], [("keep", "old.txt")]⟩ false
      = (⟨true, ["keep"], [], [("keep", "old.txt")]⟩, .ok initResult) :=
  claim_C1_organize_empty_dir (fun _ => true) _ rfl rfl

/-! ### Claim C2 -/

/-- Claim C2: a dry run on an existing directory performs no filesystem
mutation whatsoever — the returned state is exactly the input state, so no
folders are created and no file is moved — while every enumerated regular
file is still appended to the result under its computed category. -/
theorem claim_C2_dry_run_pure (oracle : String → Bool) (fs : FS)
    (h : fs.rootExists = true) :
    organize_files oracle fs true =
      (fs, .ok (fs.files.foldl (fun r n => addTo r (categorize_file n) n) initResult))
    ∧ ∀ f ∈ fs.files,
        f ∈ ((fs.files.foldl (fun r n => addTo r (categorize_file n) n)
            initResult).lookup (categorize_file f)).getD [] := by
  constructor
  · by_cases he : fs.files.isEmpty = true
    · have hfl : fs.files = [] := by
        cases hq : fs.files with
        | nil => rfl
        | cons a t => rw [hq] at he; exact absurd he (by simp)
      rw [organize_files_empty oracle fs true h he, hfl]
      rfl
    · have hne : fs.files.isEmpty = false := by
        revert he; cases fs.files.isEmpty <;> simp
      exact organize_files_dry_eq oracle fs h hne
  · intro f hf
    rw [foldl_record_true,
        lookup_foldl_record (fun _ => true) fs.files initResult (categorize_file f),
        lookup_initResult (categorize_mem_categories f)]
    show f ∈ fs.files.filter
        (fun n => (fun _ => true : String → Bool) n && (categorize_file n == categorize_file f))
    exact List.mem_filter.mpr ⟨hf, by simp⟩

/-- Claim C2, witness: dry run at a one-file directory, state unchanged and
`"a.JPG"` recorded under `Images`. -/
theorem claim_C2_witness :
    organize_files (fun _ => true) ⟨true, [], ["a.JPG"], []⟩ true =
      (⟨true, [], ["a.JPG"], []⟩,
       .ok ((["a.JPG"] : List String).foldl
          (fun r n => addTo r (categorize_file n) n) initResult))
    ∧ ∀ f ∈ (["a.JPG"] : List String),
        f ∈ (((["a.JPG"] : List String).foldl (fun r n => addTo r (categorize_file n) n)
            initResult).lookup (categorize_file f)).getD [] :=
  claim_C2_dry_run_pure (fun _ => true) ⟨true, [], ["a.JPG"], []⟩ rfl

/-! ### Claim C3 -/

/-- Claim C3: on a nonexistent directory, `organize_files` (in either mode)
raises the not-found error immediately, before any enumeration or mutation
— the returned state is the untouched input state and no result dictionary
is produced — while on an existing directory it never raises this
particular error (a live run may still raise `FileExistsError` from folder
provisioning, which is a different error). -/
theorem claim_C3_directory_not_found :
    (∀ (oracle : String → Bool) (fs : FS) (dry : Bool), fs.rootExists = false →
       organize_files oracle fs dry = (fs, .error "Directory does not exist"))
    ∧ (∀ (oracle : String → Bool) (fs : FS) (dry : Bool), fs.rootExists = true →
       (organize_files oracle fs dry).2 ≠ .error "Directory does not exist") := by
  constructor
  · exact fun oracle fs dry h => organize_files_no_root oracle fs dry h
  · intro oracle fs dry h
    by_cases he : fs.files.isEmpty = true
    · rw [organize_files_empty oracle fs dry h he]
      exact fun hq => Except.noConfusion hq
    · have hne : fs.files.isEmpty = false := by
        revert he; cases fs.files.isEmpty <;> simp
      cases dry with
      | true =>
        rw [organize_files_dry_eq oracle fs h hne]
        exact fun hq => Except.noConfusion hq
      | false =>
        cases hq : create_category_folders fs with
        | mk fs1 err =>
          cases err with
          | none =>
            rw [organize_files_live_eq oracle fs fs1 h hne hq]
            exact fun hc => Except.noConfusion hc
          | some e =>
            rw [organize_files_live_err oracle fs fs1 e h hne hq]
            intro hc
            have he' : e = "FileExistsError" := runMkdirs_err categories fs fs1 e h hq
            rw [he'] at hc
            have : ("FileExistsError" : String) = "Directory does not exist" :=
              Except.error.inj hc
            exact absurd this (by decide)

/-- Claim C3, witness: the missing-directory error at a concrete state, and
the absence of that error at a concrete existing directory. -/
theorem claim_C3_witness :
    organize_files (fun _ => true) ⟨false, [], ["a.txt"], []⟩ false
      = (⟨false, [], ["a.txt"], []⟩, .error "Directory does not exist")
    ∧ (organize_files (fun _ => true) ⟨true, [], ["a.txt"], []⟩ true).2
        ≠ .error "Directory does not exist" :=
  ⟨claim_C3_directory_not_found.1 (fun _ => true) ⟨false, [], ["a.txt"], []⟩ false rfl,
   claim_C3_directory_not_found.2 (fun _ => true) ⟨true, [], ["a.txt"], []⟩ true rfl⟩

/-! ### Claim C4 -/

/-- Claim C4: in a live run on a directory whose files do not collide with
the category folder names (so provisioning succeeds and the per-file loop
is reached), every failed move is isolated — the run still returns a result
(it is not aborted), a file whose move failed stays in the directory
listing and is absent from every category of the result, and a file is
recorded under its category exactly when its move succeeded. -/
theorem claim_C4_move_failure_isolated (oracle : String → Bool) (fs : FS)
    (h : fs.rootExists = true) (hnd : fs.files.Nodup)
    (hnc : ∀ c ∈ categories, c ∉ fs.files) :
    ∃ fs' res, organize_files oracle fs false = (fs', .ok res)
      ∧ fs'.files = fs.files.filter (fun n => !(oracle n))
      ∧ ∀ c ∈ categories,
          res.lookup c =
            some (fs.files.filter (fun n => oracle n && (categorize_file n == c))) := by
  by_cases he : fs.files.isEmpty = true
  · have hfl : fs.files = [] := by
      cases hq : fs.files with
      | nil => rfl
      | cons a t => rw [hq] at he; exact absurd he (by simp)
    refine ⟨fs, initResult, organize_files_empty oracle fs false h he, ?_, ?_⟩
    · rw [hfl]; rfl
    · intro c hc
      rw [lookup_initResult hc, hfl]
      rfl
  · have hne : fs.files.isEmpty = false := by
      revert he; cases fs.files.isEmpty <;> simp
    obtain ⟨fs1, hrun, hroot1, hfiles1, hsub1, hdirs1, hndp1⟩ :=
      runMkdirs_ok categories fs h hnc
    refine ⟨_, _, organize_files_live_eq oracle fs fs1 h hne hrun, ?_, ?_⟩
    · rw [files_foldl_moveState, hfiles1]
      exact foldl_erase_eq_filter oracle fs.files hnd
    · intro c hc
      rw [lookup_foldl_record oracle fs.files initResult c, lookup_initResult hc]
      rfl

/-- Claim C4, witness: two files, the move of `"a.txt"` failing — the run
returns, `"a.txt"` stays in place and appears in no category, `"b.jpg"` is
moved and recorded under `Images`. -/
theorem claim_C4_witness :
    ∃ fs' res,
      organize_files (fun n => !(n == "a.txt")) ⟨true, [], ["a.txt", "b.jpg"], []⟩ false
        = (fs', .ok res)
      ∧ fs'.files = (["a.txt", "b.jpg"] : List String).filter (fun n => !(!(n == "a.txt")))
      ∧ ∀ c ∈ categories,
          res.lookup c = some ((["a.txt", "b.jpg"] : List String).filter
            (fun n => (!(n == "a.txt")) && (categorize_file n == c))) :=
  claim_C4_move_failure_isolated (fun n => !(n == "a.txt"))
    ⟨true, [], ["a.txt", "b.jpg"], []⟩ rfl (by decide) (by decide)

/-! ### Claim C5 -/

/-- Claim C5: categorization is total (always lands in one of the eight
categories) and is determined by the lower-cased suffix after the final
dot: names without a dot and dotfiles with no further dot get an empty
extension and category `"Other"`; for any name with a proper final dot the
category is the table lookup of the lower-cased final suffix, so only the
final suffix matters, as in `"file.backup.txt"` being `Documents`. -/
theorem claim_C5_extension_categorization :
    (∀ name : String, categorize_file name ∈ categories)
    ∧ (∀ name : String, '.' ∉ name.data → categorize_file name = "Other")
    ∧ (∀ t : String, '.' ∉ t.data → categorize_file ⟨'.' :: t.data⟩ = "Other")
    ∧ (∀ s t : String, s.data ≠ [] → t.data ≠ [] → '.' ∉ t.data →
        categorize_file ⟨s.data ++ '.' :: t.data⟩
          = categoryOfExt ⟨'.' :: t.data.map pyLowerChar⟩)
    ∧ categorize_file "file.backup.txt" = "Documents" := by
  refine ⟨categorize_mem_categories, fun name hn => ?_, fun t ht => ?_,
    fun s t hs ht0 ht => ?_, by decide⟩
  · rw [categorize_file, get_file_extension, pySuffix_no_dot hn]
    rfl
  · rw [categorize_file, get_file_extension,
        show (String.mk ('.' :: t.data)).data = '.' :: t.data from rfl,
        pySuffix_dotfile ht]
    rfl
  · rw [categorize_file, get_file_extension,
        show (String.mk (s.data ++ '.' :: t.data)).data = s.data ++ '.' :: t.data from rfl,
        pySuffix_split s.data t.data hs ht0 ht]
    rw [show ('.' :: t.data).map pyLowerChar = '.' :: t.data.map pyLowerChar from by
      rw [List.map_cons, pyLowerChar_dot]]

/-- Claim C5, witness: the hypothesis-bearing parts instantiated at
`"noext"`, `".hidden"` and `"file.backup" + "." + "txt"`. -/
theorem claim_C5_witness :
    categorize_file "noext" = "Other"
    ∧ categorize_file ⟨'.' :: ("hidden" : String).data⟩ = "Other"
    ∧ categorize_file ⟨("file.backup" : String).data ++ '.' :: ("txt" : String).data⟩
        = categoryOfExt ⟨'.' :: ("txt" : String).data.map pyLowerChar⟩ :=
  ⟨claim_C5_extension_categorization.2.1 "noext" (by decide),
   claim_C5_extension_categorization.2.2.1 "hidden" (by decide),
   claim_C5_extension_categorization.2.2.2.1 "file.backup" "txt"
     (by decide) (by decide) (by decide)⟩

/-! ### Claim C6 -/

/-- Claim C6: case-insensitivity — upper-casing a file name's extension
never changes its category. -/
theorem claim_C6_case_insensitive (name : String) :
    categorize_file (upper_case_extension name) = categorize_file name := by
  rw [upper_case_extension]
  cases hf : rfindIdx name.data '.' with
  | none => rfl
  | some i =>
    show categorize_file (if 0 < i ∧ i < name.data.length - 1 then
        (⟨name.data.take i ++ (name.data.drop i).map pyUpperChar⟩ : String) else name)
      = categorize_file name
    by_cases hcond : 0 < i ∧ i < name.data.length - 1
    · rw [if_pos hcond]
      obtain ⟨hlt, hdec, hnd⟩ := rfindIdx_decomp hf
      -- name.data.drop i = '.' :: rest with rest dot-free
      have hrest : '.' ∉ (name.data.drop (i + 1)).map pyUpperChar := by
        intro hm
        obtain ⟨x, hx, hx2⟩ := List.mem_map.mp hm
        exact hnd ((pyUpperChar_eq_dot_iff x).mp hx2 ▸ hx)
      have htk : (name.data.take i).length = i :=
        List.length_take_of_le (Nat.le_of_lt hlt)
      have hmap : (name.data.drop i).map pyUpperChar
          = '.' :: (name.data.drop (i + 1)).map pyUpperChar := by
        rw [hdec, List.map_cons, show pyUpperChar '.' = '.' from rfl]
      have hfind : rfindIdx (name.data.take i ++ (name.data.drop i).map pyUpperChar) '.'
          = some i := by
        rw [hmap, rfindIdx_dot_spec _ _ hrest, htk]
      have hlen : (name.data.take i ++ (name.data.drop i).map pyUpperChar).length
          = name.data.length := by
        rw [List.length_append, htk, List.length_map, List.length_drop]
        omega
      have hsfx1 : pySuffix (name.data.take i ++ (name.data.drop i).map pyUpperChar)
          = (name.data.drop i).map pyUpperChar := by
        rw [pySuffix_eq_of_rfind hfind (by rw [hlen]; exact hcond)]
        exact List.drop_left' htk
      have hsfx2 : pySuffix name.data = name.data.drop i := pySuffix_eq_of_rfind hf hcond
      rw [categorize_file, categorize_file, get_file_extension, get_file_extension]
      rw [show (String.mk (name.data.take i ++ (name.data.drop i).map pyUpperChar)).data
            = name.data.take i ++ (name.data.drop i).map pyUpperChar from rfl]
      rw [hsfx1, hsfx2, List.map_map]
      rw [show (name.data.drop i).map (pyLowerChar ∘ pyUpperChar)
            = (name.data.drop i).map pyLowerChar from
        List.map_congr_left (fun x _ => pyLower_pyUpper x)]
    · rw [if_neg hcond]

/-! ### Claim C7 -/

/-- Claim C7, amended: folder provisioning on an existing directory whose
regular files do not collide with the category names raises no error and
is idempotent — a second call returns the very same state — with
pre-existing folders untouched, exactly the category folders added, no
duplicates introduced, files untouched, and the folders processed in the
table's declared order with `"Other"` last. -/
theorem claim_C7_folder_idempotent :
    (∀ fs : FS, fs.rootExists = true → (∀ c ∈ categories, c ∉ fs.files) →
      ∃ fs', create_category_folders fs = (fs', none)
        ∧ create_category_folders fs' = (fs', none)
        ∧ (∀ d, d ∈ fs'.dirs ↔ d ∈ fs.dirs ∨ d ∈ categories)
        ∧ (fs.dirs.Nodup → fs'.dirs.Nodup)
        ∧ fs'.files = fs.files ∧ fs'.subfiles = fs.subfiles)
    ∧ categories = ["Images", "Documents", "Videos", "Audio", "Archives",
        "Code", "Executables"] ++ ["Other"] := by
  constructor
  · intro fs h hnc
    obtain ⟨fs', h1, h2, h3, h4, h5, h6⟩ := runMkdirs_ok categories fs h hnc
    refine ⟨fs', h1, ?_, h5, h6, h3, h4⟩
    refine runMkdirs_id categories fs' h2 (fun d hd => ?_)
      (fun d hd => (h5 d).mpr (Or.inr hd))
    rw [h3]
    exact hnc d hd
  · rfl

/-- Claim C7, counterexample to the claim as stated: on an existing
directory that holds a regular file named `"Images"`, the very first
`mkdir(exist_ok=True)` raises `FileExistsError` (`exist_ok` only
suppresses the error for an existing directory), so provisioning does
signal an error and the claimed no-error idempotence fails. -/
theorem claim_C7_counterexample :
    create_category_folders ⟨true, [], ["Images"], []⟩
      = (⟨true, [], ["Images"], []⟩, some "FileExistsError") := by
  rfl

/-- Claim C7, witness: provisioning twice at a concrete collision-free
state with one pre-existing folder. -/
theorem claim_C7_witness :
    (∃ fs', create_category_folders ⟨true, ["pre"], ["f.txt"], []⟩ = (fs', none)
      ∧ create_category_folders fs' = (fs', none)
      ∧ (∀ d, d ∈ fs'.dirs ↔ d ∈ (["pre"] : List String) ∨ d ∈ categories)
      ∧ ((["pre"] : List String).Nodup → fs'.dirs.Nodup)
      ∧ fs'.files = ["f.txt"] ∧ fs'.subfiles = []) := by
  have hw := claim_C7_folder_idempotent.1 ⟨true, ["pre"], ["f.txt"], []⟩ rfl (by decide)
  exact hw

/-! ### Claim C8 -/

/-- Claim C8: classification agrees with the fixed built-in table — every
listed extension maps to its own category, every unlisted extension maps to
`"Other"` — and the three-file scenario
`image1.jpg, document1.pdf, unknown1.xyz` produces exactly the documented
result and filesystem layout with a total of 3 files. -/
theorem claim_C8_table_agreement :
    (∀ kv ∈ fileExtensionsTable, ∀ e ∈ kv.2, categoryOfExt e = kv.1)
    ∧ (∀ e : String, (∀ kv ∈ fileExtensionsTable, e ∉ kv.2) → categoryOfExt e = "Other")
    ∧ organize_files (fun _ => true)
        ⟨true, [], ["image1.jpg", "document1.pdf", "unknown1.xyz"], []⟩ false
      = (⟨true, ["Images", "Documents", "Videos", "Audio", "Archives", "Code",
                 "Executables", "Other"], [],
          [("Images", "image1.jpg"), ("Documents", "document1.pdf"),
           ("Other", "unknown1.xyz")]⟩,
         .ok [("Images", ["image1.jpg"]), ("Documents", ["document1.pdf"]),
              ("Videos", []), ("Audio", []), ("Archives", []), ("Code", []),
              ("Executables", []), ("Other", ["unknown1.xyz"])])
    ∧ (((organize_files (fun _ => true)
          ⟨true, [], ["image1.jpg", "document1.pdf", "unknown1.xyz"], []⟩
          false).2.toOption.getD []).map (fun kv => kv.2.length)).sum = 3 := by
  refine ⟨by decide, ?_, by rfl, by rfl⟩
  intro e he
  rw [categoryOfExt]
  have hnone : fileExtensionsTable.find? (fun kv => kv.2.contains e) = none :=
    List.find?_eq_none.mpr fun kv hkv hq => he kv hkv (List.elem_iff.mp hq)
  rw [hnone]

/-- Claim C8, witness: the unlisted extension `".xyz"` maps to `"Other"`. -/
theorem claim_C8_witness : categoryOfExt ".xyz" = "Other" :=
  claim_C8_table_agreement.2.1 ".xyz" (by decide)

/-! ### Claim C10 -/

/-- Claim C10: on a nonexistent target directory, `create_category_folders`
raises `FileNotFoundError` and creates nothing — the state comes back
unchanged, the target directory itself is never materialized (`mkdir` is
non-recursive), and already the very first category's `mkdir` is what
fails. -/
theorem claim_C10_create_folders_missing_dir (fs : FS) (h : fs.rootExists = false) :
    create_category_folders fs = (fs, some "FileNotFoundError")
      ∧ mkdirExistOk fs "Images" = .error "FileNotFoundError" := by
  have hstep : ∀ name, mkdirExistOk fs name = .error "FileNotFoundError" := by
    intro name
    rw [mkdirExistOk, if_neg (by rw [h]; exact fun hq => Bool.noConfusion hq)]
  refine ⟨?_, hstep "Images"⟩
  have hc : categories = "Images" :: ["Documents", "Videos", "Audio", "Archives",
      "Code", "Executables", "Other"] := rfl
  rw [create_category_folders, hc, runMkdirs, hstep "Images"]

/-- Claim C10, witness: the failure at a concrete nonexistent directory. -/
theorem claim_C10_witness :
    create_category_folders ⟨false, [], ["a.txt"], []⟩
        = (⟨false, [], ["a.txt"], []⟩, some "FileNotFoundError")
      ∧ mkdirExistOk ⟨false, [], ["a.txt"], []⟩ "Images" = .error "FileNotFoundError" :=
  claim_C10_create_folders_missing_dir ⟨false, [], ["a.txt"], []⟩ rfl

/-! ### Claim C9 -/

theorem applyWrites_orgTable (ws : List (Nat × List String)) :
    ∀ s : PyState, (applyWrites s ws).orgTable = s.orgTable := by
  induction ws with
  | nil => intro s; rfl
  | cons w ws ih => intro s; rw [applyWrites, ih]; rfl

theorem applyWrites_heap_getD (ws : List (Nat × List String)) :
    ∀ (s : PyState) (r : Nat), (∀ w ∈ ws, 7 ≤ w.1) → r < 7 →
      (applyWrites s ws).heap.getD r [] = s.heap.getD r [] := by
  induction ws with
  | nil => intro s r _ _; rfl
  | cons w ws ih =>
    intro s r hall hr
    rw [applyWrites, ih _ r (fun x hx => hall x (List.mem_cons_of_mem _ hx)) hr]
    have hw : 7 ≤ w.1 := hall w (by simp)
    have hne : w.1 ≠ r := by omega
    rw [writeCell, List.getD_eq_getElem?_getD, List.getD_eq_getElem?_getD,
        List.getElem?_set_ne hne]

theorem find?_congr_pred {α} (l : List α) (p q : α → Bool)
    (h : ∀ x ∈ l, p x = q x) : l.find? p = l.find? q := by
  induction l with
  | nil => rfl
  | cons x t ih =>
    rw [List.find?_cons, List.find?_cons, h x (by simp)]
    cases q x with
    | true => rfl
    | false => exact ih fun y hy => h y (List.mem_cons_of_mem _ hy)

/-- Reading the table through the freshly initialised heap agrees with the
pure categorization function. -/
theorem categorize_heap_initState (name : String) :
    categorize_heap initState name = categorize_file name := by
  rw [categorize_heap, categorize_file, categoryOfExt]
  have hmap : initState.orgTable.map
      (fun kv => (kv.1, initState.heap.getD kv.2 [])) = fileExtensionsTable := rfl
  rw [← hmap, List.find?_map]
  rw [find?_congr_pred initState.orgTable
    (fun kv => (initState.heap.getD kv.2 []).contains (get_file_extension name))
    ((fun kv : String × List String => kv.2.contains (get_file_extension name)) ∘
      (fun kv : String × Nat => (kv.1, initState.heap.getD kv.2 [])))
    (fun kv _ => rfl)]
  cases hf : initState.orgTable.find?
      ((fun kv : String × List String => kv.2.contains (get_file_extension name)) ∘
        (fun kv : String × Nat => (kv.1, initState.heap.getD kv.2 []))) with
  | none => rfl
  | some kv => rfl

/-- Claim C9: the `file_extensions` accessor returns a deep copy, so any
sequence of in-place mutations a caller applies to the returned dict's
cells leaves every subsequent categorization unchanged, leaves the
organizer's private table untouched, and the heap-reading categorization of
the untouched organizer coincides with the pure `categorize_file`. -/
theorem claim_C9_deep_copy (ws : List (Nat × List String)) (name : String)
    (hws : ∀ w ∈ ws, w.1 ∈ (file_extensions_prop initState).2.map Prod.snd) :
    categorize_heap (applyWrites (file_extensions_prop initState).1 ws) name
        = categorize_heap initState name
      ∧ (applyWrites (file_extensions_prop initState).1 ws).orgTable = initState.orgTable
      ∧ categorize_heap initState name = categorize_file name := by
  have hws7 : ∀ w ∈ ws, 7 ≤ w.1 := by
    intro w hw
    have hmem := hws w hw
    rw [show (file_extensions_prop initState).2.map Prod.snd
          = [7, 8, 9, 10, 11, 12, 13] from rfl] at hmem
    simp only [List.mem_cons, List.not_mem_nil, or_false] at hmem
    omega
  have htab : (applyWrites (file_extensions_prop initState).1 ws).orgTable
      = initState.orgTable := by
    rw [applyWrites_orgTable]
    rfl
  have hcells : ∀ kv ∈ initState.orgTable,
      (applyWrites (file_extensions_prop initState).1 ws).heap.getD kv.2 []
        = initState.heap.getD kv.2 [] := by
    intro kv hkv
    fin_cases hkv <;>
      · rw [applyWrites_heap_getD ws (file_extensions_prop initState).1 _ hws7 (by omega)]
        rfl
  refine ⟨?_, htab, categorize_heap_initState name⟩
  rw [categorize_heap, categorize_heap, htab,
    find?_congr_pred initState.orgTable _ _ (fun kv hkv => by rw [hcells kv hkv])]

/-- Claim C9, witness: clearing the copied `Images` cell (heap reference 7)
does not change how `"a.jpg"` is categorized. -/
theorem claim_C9_witness :
    categorize_heap (applyWrites (file_extensions_prop initState).1 [(7, [])]) "a.jpg"
        = categorize_heap initState "a.jpg"
      ∧ (applyWrites (file_extensions_prop initState).1 [(7, [])]).orgTable
        = initState.orgTable
      ∧ categorize_heap initState "a.jpg" = categorize_file "a.jpg" :=
  claim_C9_deep_copy [(7, [])] "a.jpg" (by decide)

end FileOrganizer
